import Mathlib

/-!
Verification of the programmatic tool-calling core (tool-wrapper) against its
specification.  The embedding models `createCodeExecutionTool` from
src/lib/tool-wrapper.ts: the output fallback derived from the recorded tool
calls, the defensive serialization chain, the per-run metadata, the timeout
race and the reset in the finally block, together with the registry split
between local and bridged tool names from the `ProgrammaticToolCaller`
constructor.
-/

namespace PTC

/-- Model of a JavaScript runtime value as far as the serialization and
output-fallback logic observes it.  `vBigInt` stands for the values on which
`JSON.stringify` throws; `vUndefined` and `vSymbol` stringify to `undefined`,
which `JSON.parse` then rejects at the root but which is dropped (objects) or
nulled (arrays) in nested positions.  Numbers are modelled as integers since
the serializer never inspects numeric precision. -/
inductive JSVal : Type where
  | vUndefined : JSVal
  | vNull : JSVal
  | vBool : Bool → JSVal
  | vNum : Int → JSVal
  | vStr : String → JSVal
  | vBigInt : Int → JSVal
  | vSymbol : String → JSVal
  | vArr : List JSVal → JSVal
  | vObj : List (String × JSVal) → JSVal

/-- JavaScript truthiness of a value. -/
def truthy : JSVal → Bool
  | .vUndefined => false
  | .vNull => false
  | .vBool b => b
  | .vNum n => n != 0
  | .vStr s => s != ""
  | .vBigInt n => n != 0
  | .vSymbol _ => true
  | .vArr _ => true
  | .vObj _ => true

/-- Whether the value is `undefined` or `null` (the guard on line 169 of
tool-wrapper.ts). -/
def isNullish : JSVal → Bool
  | .vUndefined => true
  | .vNull => true
  | _ => false

/-- JavaScript `typeof`. -/
def typeofJS : JSVal → String
  | .vUndefined => "undefined"
  | .vNull => "object"
  | .vBool _ => "boolean"
  | .vNum _ => "number"
  | .vStr _ => "string"
  | .vBigInt _ => "bigint"
  | .vSymbol _ => "symbol"
  | .vArr _ => "object"
  | .vObj _ => "object"

/-- The check `typeof output === 'object' && output !== null` on line 200 of
tool-wrapper.ts (arrays included). -/
def isObjectLike : JSVal → Bool
  | .vArr _ => true
  | .vObj _ => true
  | _ => false

mutual
/-- JavaScript `String(v)` as far as the serializer uses it. -/
def jsToString : JSVal → String
  | .vUndefined => "undefined"
  | .vNull => "null"
  | .vBool b => if b then "true" else "false"
  | .vNum n => toString n
  | .vStr s => s
  | .vBigInt n => toString n
  | .vSymbol s => "Symbol(" ++ s ++ ")"
  | .vArr xs => jsListToString xs
  | .vObj _ => "[object Object]"

/-- `Array.prototype.toString`: elements joined by commas. -/
def jsListToString : List JSVal → String
  | [] => ""
  | [x] => jsToString x
  | x :: y :: xs => jsToString x ++ "," ++ jsListToString (y :: xs)
end

mutual
/-- The structural round trip `JSON.parse(JSON.stringify(v))`: `none` when it
throws (a bigint anywhere in serialized position, or a root value that
stringifies to `undefined`); otherwise the copied value with `undefined` and
symbol entries dropped from objects and replaced by `null` in arrays. -/
def rtVal : JSVal → Option JSVal
  | .vUndefined => none
  | .vSymbol _ => none
  | .vBigInt _ => none
  | .vNull => some .vNull
  | .vBool b => some (.vBool b)
  | .vNum n => some (.vNum n)
  | .vStr s => some (.vStr s)
  | .vArr xs => (rtArr xs).map JSVal.vArr
  | .vObj fs => (rtObj fs).map JSVal.vObj
termination_by v => (sizeOf v, 0)

/-- Round trip of one array element: `undefined` and symbols serialize to
`null` inside arrays, every other value round trips as usual. -/
def rtElem : JSVal → Option JSVal
  | .vUndefined => some .vNull
  | .vSymbol _ => some .vNull
  | v => rtVal v
termination_by v => (sizeOf v, 1)

/-- Round trip of array elements in order; `none` when stringification of
any element throws. -/
def rtArr : List JSVal → Option (List JSVal)
  | [] => some []
  | x :: xs =>
    match rtElem x, rtArr xs with
    | some y, some rest => some (y :: rest)
    | _, _ => none
termination_by l => (sizeOf l, 0)

/-- Round trip action on one object field value: `some none` when the field
is omitted (an `undefined` or symbol value), `some (some y)` when the field
is kept with value y, `none` when stringification throws. -/
def rtFieldRT : JSVal → Option (Option JSVal)
  | .vUndefined => some none
  | .vSymbol _ => some none
  | v => (rtVal v).map some
termination_by v => (sizeOf v, 1)

/-- Round trip of object fields in order, omitting dropped fields; `none`
when stringification of any kept field throws. -/
def rtObj : List (String × JSVal) → Option (List (String × JSVal))
  | [] => some []
  | (k, v) :: fs =>
    match rtFieldRT v, rtObj fs with
    | some none, some rest => some rest
    | some (some y), some rest => some ((k, y) :: rest)
    | _, _ => none
termination_by l => (sizeOf l, 0)
end

/-- `Object.entries` as used on line 204 of tool-wrapper.ts: fields of an
object, index-keyed elements of an array. -/
def entriesJS : JSVal → List (String × JSVal)
  | .vObj fs => fs
  | .vArr xs => (List.range xs.length).zip xs |>.map (fun p => (toString p.1, p.2))
  | _ => []

/-- Per-field recovery on lines 205-209 of tool-wrapper.ts: round trip the
field, falling back to `String(value)` when it throws. -/
def coerceField (v : JSVal) : JSVal :=
  match rtVal v with
  | some w => w
  | none => .vStr (jsToString v)

/-- The serialization chain of lines 193-221 of tool-wrapper.ts for a
non-nullish output: the round-tripped copy when it succeeds; otherwise, for
object-like values, each entry round-tripped individually with failing fields
coerced to strings; otherwise the diagnostic (value, type) object. -/
def serializeValue (output : JSVal) : JSVal :=
  match rtVal output with
  | some v => v
  | none =>
    if isObjectLike output then
      .vObj ((entriesJS output).map (fun kv => (kv.1, coerceField kv.2)))
    else
      .vObj [("value", .vStr (jsToString output)), ("type", .vStr (typeofJS output))]

/-- One recorded capability invocation, as the trace entries consumed in
`createCodeExecutionTool` expose it: name, argument snapshot, result
(`vUndefined` when the call errored), optional error message, origin flag
and duration. -/
structure ToolCallRecord where
  toolName : String
  args : JSVal
  result : JSVal
  error : Option String
  isMCP : Bool
  executionTimeMs : Nat

/-- One entry of the `allResults` summary built on lines 175-179 of
tool-wrapper.ts. -/
def callSummaryEntry (tc : ToolCallRecord) : JSVal :=
  .vObj [("tool", .vStr tc.toolName),
         ("success", .vBool tc.error.isNone),
         ("result", tc.result)]

/-- The fallback of lines 170-192 of tool-wrapper.ts when the script returned
`undefined` or `null`: with no recorded call a fixed message object, with
exactly one call its result when truthy (the `lastCall.result || ...`
disjunction) and a fixed fallback otherwise, with several calls a summary
object carrying all results and the last result. -/
def deriveFromToolCalls : List ToolCallRecord → JSVal
  | [] => .vObj [("message", .vStr "Code executed but returned no result"),
                 ("success", .vBool true)]
  | tc :: rest =>
    let lastCall := (tc :: rest).getLast (List.cons_ne_nil tc rest)
    let allResults := (tc :: rest).map callSummaryEntry
    if (tc :: rest).length = 1 then
      if truthy lastCall.result then lastCall.result
      else .vObj [("success", .vBool lastCall.error.isNone),
                  ("message", .vStr "Tool executed")]
    else
      .vObj [("message",
              .vStr ("Executed " ++ toString (tc :: rest).length ++ " tool calls")),
             ("results", .vArr allResults),
             ("lastResult", lastCall.result)]

/-- The whole `serializableOutput` computation (lines 166-222 of
tool-wrapper.ts): nullish outputs are replaced from the trace, all others go
through the defensive serialization chain. -/
def computeSerializableOutput (output : JSVal) (toolCalls : List ToolCallRecord) : JSVal :=
  if isNullish output then deriveFromToolCalls toolCalls
  else serializeValue output

mutual
/-- Rough token weight of a value, used by the savings heuristic. -/
def jsValSize : JSVal → Nat
  | .vUndefined => 1
  | .vNull => 1
  | .vBool _ => 1
  | .vNum _ => 1
  | .vStr s => 1 + s.length / 4
  | .vBigInt _ => 1
  | .vSymbol _ => 1
  | .vArr xs => 1 + jsListSize xs
  | .vObj fs => 1 + jsFieldsSize fs

/-- Token weight of array elements. -/
def jsListSize : List JSVal → Nat
  | [] => 0
  | x :: xs => jsValSize x + jsListSize xs

/-- Token weight of object fields. -/
def jsFieldsSize : List (String × JSVal) → Nat
  | [] => 0
  | (k, v) :: fs => k.length / 4 + jsValSize v + jsFieldsSize fs
end

/-- The four-component heuristic estimate plus its derived total and a
human-readable breakdown, as returned by the sandbox. -/
structure TokenSavingsEstimate where
  intermediateResultTokens : Nat
  roundTripContextTokens : Nat
  toolCallOverheadTokens : Nat
  llmDecisionTokens : Nat
  totalSaved : Nat
  breakdown : String

/-- Modelled from the spec: `ToolOrchestrationSandbox.getComprehensiveTokenSavings`
lives in src/lib/sandbox.ts, which is not among the provided sources.  Per the
spec the estimator derives, from the completed trace (call count and per-call
payload sizes), the four components of the TokenSavingsEstimate, with the
total equal to their sum and every component zero on an empty trace. -/
def getComprehensiveTokenSavings (trace : List ToolCallRecord) : TokenSavingsEstimate :=
  let inter := (trace.map (fun c => jsValSize c.result)).sum
  let round := (trace.map (fun c => jsValSize c.args + jsValSize c.result)).sum
  let over := trace.length * 150
  let llm := trace.length * 100
  { intermediateResultTokens := inter
    roundTripContextTokens := round
    toolCallOverheadTokens := over
    llmDecisionTokens := llm
    totalSaved := inter + round + over + llm
    breakdown := "heuristic token savings from batching tool calls into one script turn" }

/-- Mutable per-run state of the sandbox evaluator: the call trace and a
per-run counter. -/
structure SandboxState where
  trace : List ToolCallRecord
  callCounter : Nat

/-- The state `ToolOrchestrationSandbox.reset` leaves behind: empty trace,
counters cleared. -/
def SandboxState.reset : SandboxState :=
  { trace := [], callCounter := 0 }

/-- Observable behavior of one orchestration script: it either completes with
a top-level value after the given calls were recorded, or throws with a
message after the given calls were recorded. -/
inductive ScriptBehavior where
  | completes (output : JSVal) (calls : List ToolCallRecord)
  | throws (msg : String) (calls : List ToolCallRecord)

/-- Modelled from the spec: `ToolOrchestrationSandbox.execute` lives in
src/lib/sandbox.ts, which is not among the provided sources.  Per the spec the
evaluator appends every completed capability call to its mutable trace and
resolves with the output and the trace; on an uncaught script error it rejects
with that error while the already-appended records stay in the evaluator
state for diagnostics.  A trace left over from an earlier run (reset not yet
applied) would be visible to the next run, which is exactly what the
governor-side reset rules out. -/
def sandboxExecute (s : SandboxState) (b : ScriptBehavior) :
    Except String (JSVal × List ToolCallRecord) × SandboxState :=
  match b with
  | .completes out cs =>
    (.ok (out, s.trace ++ cs),
     { trace := s.trace ++ cs, callCounter := s.callCounter + cs.length })
  | .throws m cs =>
    (.error m,
     { trace := s.trace ++ cs, callCounter := s.callCounter + cs.length })

/-- The trace entry shape exposed to the caller in
`metadata.sandboxToolCalls` (lines 243-250 of tool-wrapper.ts). -/
structure SandboxCallView where
  toolName : String
  args : JSVal
  result : JSVal
  error : Option String
  isMCP : Bool
  executionTimeMs : Nat

/-- Projection of a trace record to its exposed view. -/
def toolCallView (c : ToolCallRecord) : SandboxCallView :=
  { toolName := c.toolName
    args := c.args
    result := c.result
    error := c.error
    isMCP := c.isMCP
    executionTimeMs := c.executionTimeMs }

/-- The `tokenSavingsBreakdown` object of lines 232-237 of tool-wrapper.ts. -/
structure TokenSavingsBreakdown where
  intermediateResults : Nat
  roundTripContext : Nat
  toolCallOverhead : Nat
  llmDecisions : Nat

/-- The metadata object of lines 226-251 of tool-wrapper.ts. -/
structure ExecMetadata where
  toolCallCount : Nat
  localToolCallCount : Nat
  mcpToolCallCount : Nat
  intermediateTokensSaved : Nat
  totalTokensSaved : Nat
  tokenSavingsBreakdown : TokenSavingsBreakdown
  savingsExplanation : String
  toolsUsed : List String
  mcpToolsUsed : List String
  localToolsUsed : List String
  executionTimeMs : Nat
  sandboxToolCalls : List SandboxCallView

/-- Worker for `jsSetDedup`: keeps an element unless it was already seen. -/
def jsSetDedupAux (seen : List String) : List String → List String
  | [] => []
  | x :: xs =>
    if seen.contains x then jsSetDedupAux seen xs
    else x :: jsSetDedupAux (x :: seen) xs

/-- Duplicate-removing conversion mirroring `[...new Set(l)]`: keeps the
first occurrence of every element, in order. -/
def jsSetDedup (l : List String) : List String :=
  jsSetDedupAux [] l

/-- The metadata computation of lines 156-251 of tool-wrapper.ts over the
trace returned by the sandbox. -/
def mkMetadata (toolCalls : List ToolCallRecord) (executionTime : Nat) : ExecMetadata :=
  let mcpCalls := toolCalls.filter (fun tc => tc.isMCP)
  let localCalls := toolCalls.filter (fun tc => !tc.isMCP)
  let tokenSavings := getComprehensiveTokenSavings toolCalls
  { toolCallCount := toolCalls.length
    localToolCallCount := localCalls.length
    mcpToolCallCount := mcpCalls.length
    intermediateTokensSaved := tokenSavings.intermediateResultTokens
    totalTokensSaved := tokenSavings.totalSaved
    tokenSavingsBreakdown :=
      { intermediateResults := tokenSavings.intermediateResultTokens
        roundTripContext := tokenSavings.roundTripContextTokens
        toolCallOverhead := tokenSavings.toolCallOverheadTokens
        llmDecisions := tokenSavings.llmDecisionTokens }
    savingsExplanation := tokenSavings.breakdown
    toolsUsed := jsSetDedup (toolCalls.map (fun c => c.toolName))
    mcpToolsUsed := jsSetDedup (mcpCalls.map (fun c => c.toolName))
    localToolsUsed := jsSetDedup (localCalls.map (fun c => c.toolName))
    executionTimeMs := executionTime
    sandboxToolCalls := toolCalls.map toolCallView }

/-- The successful return value of the code_execution tool. -/
structure ExecResult where
  result : JSVal
  metadata : ExecMetadata

/-- The wall-clock budget of the `Promise.race` on lines 147-152 of
tool-wrapper.ts. -/
def timeoutBudgetMs : Nat := 25000

/-- The rejection message of the timeout arm of the race. -/
def timeoutMessage : String := "Code execution timeout after 25 seconds"

/-- The `execute` closure of `createCodeExecutionTool` (lines 143-260 of
tool-wrapper.ts): the sandbox execution raced against the 25 s timer, the
output fallback and serialization, the metadata assembly, the error rewrap
of the catch block, and the sandbox reset in the finally block.  `duration`
is the wall-clock time the sandbox takes; when it exceeds the budget the
timer rejects first and the sandbox outcome is abandoned. -/
def codeExecutionExecute (s : SandboxState) (duration : Nat) (b : ScriptBehavior) :
    Except String ExecResult × SandboxState :=
  let raced : Except String (JSVal × List ToolCallRecord) :=
    if timeoutBudgetMs < duration then .error timeoutMessage
    else (sandboxExecute s b).1
  let res : Except String ExecResult :=
    match raced with
    | .ok (output, toolCalls) =>
      .ok { result := computeSerializableOutput output toolCalls
            metadata := mkMetadata toolCalls duration }
    | .error m => .error ("Code execution failed: " ++ m)
  (res, SandboxState.reset)

/-- A tool definition as far as the `ProgrammaticToolCaller` constructor
inspects it: whether it carries an execute function. -/
structure ToolDefModel where
  hasExecute : Bool

/-- JavaScript `name.startsWith('mcp_')`, embedded as a character-level
test so it evaluates on concrete names. -/
def startsWithMcp (s : String) : Bool :=
  "mcp_".data.isPrefixOf s.data

/-- The names added to the local registry and to `localToolNames` by the
constructor loop on lines 41-50 of tool-wrapper.ts: tools with an execute
function whose name does not start with the bridge namespace marker. -/
def localRegistryNames (tools : List (String × ToolDefModel)) : List String :=
  (tools.filter (fun t => t.2.hasExecute && !startsWithMcp t.1)).map Prod.fst

/-- Modelled from the spec: `createMCPBridge` and `MCPToolBridge.getToolNames`
live in src/lib/mcp-bridge.ts, which is not among the provided sources.  Per
the spec, bridged capability names are namespaced with the `mcp_` marker to
avoid collision with local names; the bridge collects the executable tools
that carry it. -/
def mcpBridgeToolNames (tools : List (String × ToolDefModel)) : List String :=
  (tools.filter (fun t => t.2.hasExecute && startsWithMcp t.1)).map Prod.fst

/-- `getAllToolNames` (lines 65-67 of tool-wrapper.ts): local names followed
by bridged names. -/
def getAllToolNames (tools : List (String × ToolDefModel)) : List String :=
  localRegistryNames tools ++ mcpBridgeToolNames tools

/-- A recorded call whose result is the falsy number 0. -/
def zeroResultCall : ToolCallRecord :=
  { toolName := "getUser"
    args := .vObj []
    result := .vNum 0
    error := none
    isMCP := false
    executionTimeMs := 5 }

/-- A sample tool set with a local tool, a bridged tool and an execute-less
schema entry. -/
def demoTools : List (String × ToolDefModel) :=
  [("getUser", { hasExecute := true }),
   ("mcp_firecrawl_scrape", { hasExecute := true }),
   ("schemaOnly", { hasExecute := false })]

/-! ### Helper lemmas -/

/-- Unfolding of a completed run within the wall-clock budget. -/
theorem codeExecutionExecute_completes (s : SandboxState) (d : Nat) (out : JSVal)
    (cs : List ToolCallRecord) (hd : d ≤ timeoutBudgetMs) :
    codeExecutionExecute s d (.completes out cs) =
      (.ok { result := computeSerializableOutput out (s.trace ++ cs)
             metadata := mkMetadata (s.trace ++ cs) d },
       SandboxState.reset) := by
  simp [codeExecutionExecute, sandboxExecute, Nat.not_lt.mpr hd]

/-- Unfolding of a throwing run within the wall-clock budget. -/
theorem codeExecutionExecute_throws (s : SandboxState) (d : Nat) (m : String)
    (cs : List ToolCallRecord) (hd : d ≤ timeoutBudgetMs) :
    codeExecutionExecute s d (.throws m cs) =
      (.error ("Code execution failed: " ++ m), SandboxState.reset) := by
  simp [codeExecutionExecute, sandboxExecute, Nat.not_lt.mpr hd]

/-! ### Claim C10 -/

/-- Claim C10: a run whose script returns a nullish value and which recorded
zero capability calls yields the fixed message object, not a summary, not
null, not an error. -/
theorem c10_zero_call_message (out : JSVal) (d : Nat)
    (hd : d ≤ timeoutBudgetMs) (hout : isNullish out = true) :
    (codeExecutionExecute SandboxState.reset d (.completes out [])).1.map ExecResult.result =
      .ok (.vObj [("message", .vStr "Code executed but returned no result"),
                  ("success", .vBool true)]) := by
  rw [codeExecutionExecute_completes _ _ _ _ hd]
  simp [computeSerializableOutput, hout, deriveFromToolCalls, SandboxState.reset, Except.map]

/-- Concrete instance of claim C10 at output null, duration 0. -/
theorem c10_zero_call_message_witness :
    0 ≤ timeoutBudgetMs ∧ isNullish .vNull = true ∧
    (codeExecutionExecute SandboxState.reset 0 (.completes .vNull [])).1.map ExecResult.result =
      .ok (.vObj [("message", .vStr "Code executed but returned no result"),
                  ("success", .vBool true)]) :=
  ⟨Nat.zero_le _, rfl, c10_zero_call_message .vNull 0 (Nat.zero_le _) rfl⟩

/-! ### Claim C1 -/

/-- Claim C1 fails as stated: a run with a nullish script return and exactly
one recorded call whose result is the falsy value 0 returns the fixed
fallback object, not that call result. -/
theorem c1_counterexample :
    (codeExecutionExecute SandboxState.reset 10
        (.completes .vUndefined [zeroResultCall])).1.map ExecResult.result =
      .ok (.vObj [("success", .vBool true), ("message", .vStr "Tool executed")]) ∧
    JSVal.vObj [("success", .vBool true), ("message", .vStr "Tool executed")] ≠
      zeroResultCall.result :=
  ⟨rfl, fun h => JSVal.noConfusion h⟩

/-- Claim C1 (amended): with a nullish script return and exactly one recorded
call, the tool returns that call result when the result is truthy; for a
falsy result it returns the fallback object carrying the call success flag
instead. -/
theorem c1_single_call_result (out : JSVal) (tc : ToolCallRecord) (d : Nat)
    (hd : d ≤ timeoutBudgetMs) (hout : isNullish out = true) :
    (codeExecutionExecute SandboxState.reset d (.completes out [tc])).1.map ExecResult.result =
      .ok (if truthy tc.result then tc.result
           else .vObj [("success", .vBool tc.error.isNone),
                       ("message", .vStr "Tool executed")]) := by
  rw [codeExecutionExecute_completes _ _ _ _ hd]
  simp [computeSerializableOutput, hout, deriveFromToolCalls, SandboxState.reset, Except.map]

/-- Concrete instance of claim C1 (amended) at a truthy call result 7. -/
theorem c1_single_call_result_witness :
    5 ≤ timeoutBudgetMs ∧ isNullish .vNull = true ∧
    (codeExecutionExecute SandboxState.reset 5
        (.completes .vNull [⟨"getUser", .vObj [], .vNum 7, none, false, 5⟩])).1.map
        ExecResult.result = .ok (.vNum 7) := by
  refine ⟨by decide, rfl, ?_⟩
  have h := c1_single_call_result .vNull ⟨"getUser", .vObj [], .vNum 7, none, false, 5⟩ 5
    (by decide) rfl
  simpa using h

/-! ### Claim C2 -/

/-- Claim C2: a run with a nullish script return and more than one recorded
call returns a summary object whose results array has one entry per call,
each carrying the tool name, a success flag and the result, and whose
lastResult equals the result of the last recorded call. -/
theorem c2_multi_call_summary (out : JSVal) (tcs : List ToolCallRecord) (d : Nat)
    (hd : d ≤ timeoutBudgetMs) (hout : isNullish out = true)
    (hne : tcs ≠ []) (hm : 1 < tcs.length) :
    (codeExecutionExecute SandboxState.reset d (.completes out tcs)).1.map ExecResult.result =
      .ok (.vObj [("message", .vStr ("Executed " ++ toString tcs.length ++ " tool calls")),
                  ("results", .vArr (tcs.map callSummaryEntry)),
                  ("lastResult", (tcs.getLast hne).result)]) ∧
    (tcs.map callSummaryEntry).length = tcs.length ∧
    ∀ tc ∈ tcs, callSummaryEntry tc =
      .vObj [("tool", .vStr tc.toolName), ("success", .vBool tc.error.isNone),
             ("result", tc.result)] := by
  refine ⟨?_, List.length_map _ _, fun tc _ => rfl⟩
  match tcs with
  | tc :: rest =>
    rw [codeExecutionExecute_completes _ _ _ _ hd]
    have hlen : rest.length + 1 ≠ 1 := by
      simp only [List.length_cons] at hm
      omega
    simp [computeSerializableOutput, hout, deriveFromToolCalls, SandboxState.reset, hlen,
      Except.map]

/-- Concrete instance of claim C2 at two recorded calls. -/
theorem c2_multi_call_summary_witness :
    (codeExecutionExecute SandboxState.reset 5
        (.completes .vNull
          [⟨"getUser", .vObj [], .vNum 7, none, false, 5⟩,
           ⟨"calcAvg", .vObj [], .vNum 3, none, false, 4⟩])).1.map ExecResult.result =
      .ok (.vObj [("message", .vStr "Executed 2 tool calls"),
                  ("results",
                   .vArr [.vObj [("tool", .vStr "getUser"), ("success", .vBool true),
                                 ("result", .vNum 7)],
                          .vObj [("tool", .vStr "calcAvg"), ("success", .vBool true),
                                 ("result", .vNum 3)]]),
                  ("lastResult", .vNum 3)]) := by
  have h := (c2_multi_call_summary .vNull
    [⟨"getUser", .vObj [], .vNum 7, none, false, 5⟩,
     ⟨"calcAvg", .vObj [], .vNum 3, none, false, 4⟩] 5
    (by decide) rfl (by simp) (by simp)).1
  simpa [callSummaryEntry] using h

/-! ### Claim C3 -/

/-- Claim C3: a run whose script throws after j completed calls surfaces an
error carrying the thrown message, returns no output, and the j recorded
call records are in the evaluator state when the failure happens. -/
theorem c3_script_error (m : String) (cs : List ToolCallRecord) (d : Nat)
    (hd : d ≤ timeoutBudgetMs) :
    (codeExecutionExecute SandboxState.reset d (.throws m cs)).1 =
      .error ("Code execution failed: " ++ m) ∧
    (∀ r, (codeExecutionExecute SandboxState.reset d (.throws m cs)).1 ≠ .ok r) ∧
    (sandboxExecute SandboxState.reset (.throws m cs)).2.trace = cs := by
  have h1 : (codeExecutionExecute SandboxState.reset d (.throws m cs)).1 =
      .error ("Code execution failed: " ++ m) := by
    rw [codeExecutionExecute_throws _ _ _ _ hd]
  refine ⟨h1, fun r hr => ?_, by simp [sandboxExecute, SandboxState.reset]⟩
  rw [h1] at hr
  exact Except.noConfusion hr

/-- Concrete instance of claim C3: a script throwing after one completed
call. -/
theorem c3_script_error_witness :
    (codeExecutionExecute SandboxState.reset 10
        (.throws "boom" [⟨"getUser", .vObj [], .vNum 7, none, false, 5⟩])).1 =
      .error "Code execution failed: boom" ∧
    (sandboxExecute SandboxState.reset
        (.throws "boom" [⟨"getUser", .vObj [], .vNum 7, none, false, 5⟩])).2.trace =
      [⟨"getUser", .vObj [], .vNum 7, none, false, 5⟩] := by
  have h := c3_script_error "boom" [⟨"getUser", .vObj [], .vNum 7, none, false, 5⟩] 10
    (by decide)
  exact ⟨h.1, h.2.2⟩

/-! ### Claim C4 -/

/-- Claim C4: a run whose sandbox execution has not completed within the
25000 ms budget surfaces the timeout error to the caller regardless of the
script behavior and its recorded calls, returns no output, and is not
retried (the state is simply reset). -/
theorem c4_timeout (s : SandboxState) (d : Nat) (b : ScriptBehavior)
    (hd : timeoutBudgetMs < d) :
    (codeExecutionExecute s d b).1 =
      .error ("Code execution failed: " ++ timeoutMessage) ∧
    (∀ r, (codeExecutionExecute s d b).1 ≠ .ok r) ∧
    (codeExecutionExecute s d b).2 = SandboxState.reset := by
  have h1 : (codeExecutionExecute s d b).1 =
      .error ("Code execution failed: " ++ timeoutMessage) := by
    simp [codeExecutionExecute, hd]
  refine ⟨h1, fun r hr => ?_, rfl⟩
  rw [h1] at hr
  exact Except.noConfusion hr

/-- Concrete instance of claim C4: a sandbox needing 26000 ms against the
25000 ms budget. -/
theorem c4_timeout_witness :
    timeoutBudgetMs < 26000 ∧
    (codeExecutionExecute SandboxState.reset 26000
        (.completes (.vNum 8) [⟨"double", .vObj [], .vNum 8, none, false, 26000⟩])).1 =
      .error "Code execution failed: Code execution timeout after 25 seconds" :=
  ⟨by decide,
   (c4_timeout SandboxState.reset 26000
     (.completes (.vNum 8) [⟨"double", .vObj [], .vNum 8, none, false, 26000⟩])
     (by decide)).1⟩

/-! ### Claim C6 -/

/-- Claim C6: on every termination path (completion, script error, timeout)
the state handed to the next run is the reset state, and a following
zero-call run reports an empty trace no matter what the prior run did. -/
theorem c6_reset_every_path (s : SandboxState) (d d2 : Nat) (b : ScriptBehavior)
    (out : JSVal) (hd2 : d2 ≤ timeoutBudgetMs) :
    (codeExecutionExecute s d b).2 = SandboxState.reset ∧
    (codeExecutionExecute ((codeExecutionExecute s d b).2) d2
        (.completes out [])).1.map (fun r => r.metadata.toolCallCount) = .ok 0 ∧
    (codeExecutionExecute ((codeExecutionExecute s d b).2) d2
        (.completes out [])).1.map (fun r => r.metadata.sandboxToolCalls) = .ok [] := by
  have hreset : (codeExecutionExecute s d b).2 = SandboxState.reset := rfl
  refine ⟨hreset, ?_, ?_⟩ <;>
    rw [hreset, codeExecutionExecute_completes _ _ _ _ hd2] <;>
    simp [mkMetadata, SandboxState.reset, Except.map]

/-- Concrete instance of claim C6: a prior run with two recorded calls and a
thrown error, followed by a zero-call run. -/
theorem c6_reset_every_path_witness :
    (codeExecutionExecute ⟨[⟨"a", .vNull, .vNum 1, none, false, 1⟩], 1⟩ 10
        (.throws "boom" [⟨"b", .vNull, .vNum 2, none, true, 1⟩])).2 = SandboxState.reset ∧
    (codeExecutionExecute
        ((codeExecutionExecute ⟨[⟨"a", .vNull, .vNum 1, none, false, 1⟩], 1⟩ 10
            (.throws "boom" [⟨"b", .vNull, .vNum 2, none, true, 1⟩])).2) 3
        (.completes (.vNum 5) [])).1.map (fun r => r.metadata.toolCallCount) = .ok 0 := by
  have h := c6_reset_every_path ⟨[⟨"a", .vNull, .vNum 1, none, false, 1⟩], 1⟩ 10 3
    (.throws "boom" [⟨"b", .vNull, .vNum 2, none, true, 1⟩]) (.vNum 5) (by decide)
  exact ⟨h.1, h.2.1⟩

/-! ### Claim C7 -/

/-- Claim C7: for every completed run the reported total token savings equals
the sum of the four breakdown components, and a run that recorded zero calls
reports all four components and the total as zero. -/
theorem c7_token_savings_sum (s : SandboxState) (d : Nat) (out : JSVal)
    (cs : List ToolCallRecord) (r : ExecResult) (hd : d ≤ timeoutBudgetMs)
    (hr : (codeExecutionExecute s d (.completes out cs)).1 = .ok r) :
    r.metadata.totalTokensSaved =
      r.metadata.tokenSavingsBreakdown.intermediateResults +
      r.metadata.tokenSavingsBreakdown.roundTripContext +
      r.metadata.tokenSavingsBreakdown.toolCallOverhead +
      r.metadata.tokenSavingsBreakdown.llmDecisions ∧
    (s.trace ++ cs = [] →
      r.metadata.tokenSavingsBreakdown.intermediateResults = 0 ∧
      r.metadata.tokenSavingsBreakdown.roundTripContext = 0 ∧
      r.metadata.tokenSavingsBreakdown.toolCallOverhead = 0 ∧
      r.metadata.tokenSavingsBreakdown.llmDecisions = 0 ∧
      r.metadata.totalTokensSaved = 0) := by
  rw [codeExecutionExecute_completes _ _ _ _ hd] at hr
  injection hr with hr
  subst hr
  constructor
  · rfl
  · intro hnil
    simp [mkMetadata, getComprehensiveTokenSavings, hnil]

/-- Concrete instance of claim C7 at a zero-call run. -/
theorem c7_token_savings_sum_witness :
    (codeExecutionExecute SandboxState.reset 2 (.completes (.vNum 1) [])).1 =
      .ok { result := computeSerializableOutput (.vNum 1) []
            metadata := mkMetadata [] 2 } ∧
    (mkMetadata [] 2).totalTokensSaved = 0 ∧
    (mkMetadata [] 2).tokenSavingsBreakdown.toolCallOverhead = 0 := by
  have h := c7_token_savings_sum SandboxState.reset 2 (.vNum 1) []
    { result := computeSerializableOutput (.vNum 1) []
      metadata := mkMetadata [] 2 }
    (by decide) rfl
  exact ⟨rfl, (h.2 rfl).2.2.2.2, (h.2 rfl).2.2.1⟩

/-! ### Claim C8 -/

/-- Splitting a list length by a Boolean predicate. -/
theorem length_filter_not_add_length_filter (p : α → Bool) (l : List α) :
    (l.filter (fun a => !p a)).length + (l.filter p).length = l.length := by
  induction l with
  | nil => rfl
  | cons a l ih =>
    cases h : p a <;> simp [List.filter_cons, h] <;> omega

/-- Membership in the deduplication worker. -/
theorem mem_jsSetDedupAux (l : List String) : ∀ (seen : List String) (a : String),
    a ∈ jsSetDedupAux seen l ↔ a ∈ l ∧ a ∉ seen := by
  induction l with
  | nil => intro seen a; simp [jsSetDedupAux]
  | cons x xs ih =>
    intro seen a
    rw [jsSetDedupAux]
    by_cases hx : x ∈ seen
    · rw [if_pos (by simpa using hx)]
      rw [ih seen a, List.mem_cons]
      constructor
      · rintro ⟨h1, h2⟩
        exact ⟨Or.inr h1, h2⟩
      · rintro ⟨h1 | h1, h2⟩
        · subst h1
          exact absurd hx h2
        · exact ⟨h1, h2⟩
    · rw [if_neg (by simpa using hx)]
      simp only [List.mem_cons]
      rw [ih (x :: seen) a]
      simp only [List.mem_cons]
      constructor
      · rintro (rfl | ⟨h1, h2⟩)
        · exact ⟨Or.inl rfl, hx⟩
        · exact ⟨Or.inr h1, fun hs => h2 (Or.inr hs)⟩
      · rintro ⟨h1 | h1, h2⟩
        · exact Or.inl h1
        · by_cases hax : a = x
          · exact Or.inl hax
          · exact Or.inr ⟨h1, fun hs => hs.elim hax h2⟩

/-- The deduplication worker returns a duplicate-free list. -/
theorem nodup_jsSetDedupAux (l : List String) : ∀ seen : List String,
    (jsSetDedupAux seen l).Nodup := by
  induction l with
  | nil => intro seen; simp [jsSetDedupAux]
  | cons x xs ih =>
    intro seen
    rw [jsSetDedupAux]
    by_cases hx : x ∈ seen
    · rw [if_pos (by simpa using hx)]
      exact ih seen
    · rw [if_neg (by simpa using hx)]
      refine List.nodup_cons.mpr ⟨fun hmem => ?_, ih (x :: seen)⟩
      exact ((mem_jsSetDedupAux xs (x :: seen) x).mp hmem).2 (List.mem_cons_self x seen)

/-- `jsSetDedup` keeps exactly the elements of its input. -/
theorem mem_jsSetDedup (l : List String) (a : String) :
    a ∈ jsSetDedup l ↔ a ∈ l := by
  simp [jsSetDedup, mem_jsSetDedupAux l []]

/-- `jsSetDedup` returns a duplicate-free list. -/
theorem nodup_jsSetDedup (l : List String) : (jsSetDedup l).Nodup :=
  nodup_jsSetDedupAux l []

/-- Claim C8: the metadata of a completed run partitions the trace
consistently: the call count equals local plus bridged (each decided by the
isMCP flag of the record), toolsUsed is a duplicate-free list holding
exactly the names occurring in the trace, and sandboxToolCalls exposes one
view per recorded call with its fields. -/
theorem c8_metadata_partition (s : SandboxState) (d : Nat) (out : JSVal)
    (cs : List ToolCallRecord) (r : ExecResult) (hd : d ≤ timeoutBudgetMs)
    (hr : (codeExecutionExecute s d (.completes out cs)).1 = .ok r) :
    r.metadata.toolCallCount =
      r.metadata.localToolCallCount + r.metadata.mcpToolCallCount ∧
    r.metadata.localToolCallCount =
      ((s.trace ++ cs).filter (fun tc => !tc.isMCP)).length ∧
    r.metadata.mcpToolCallCount =
      ((s.trace ++ cs).filter (fun tc => tc.isMCP)).length ∧
    r.metadata.toolsUsed.Nodup ∧
    (∀ n, n ∈ r.metadata.toolsUsed ↔
        n ∈ (s.trace ++ cs).map ToolCallRecord.toolName) ∧
    r.metadata.sandboxToolCalls = (s.trace ++ cs).map toolCallView := by
  rw [codeExecutionExecute_completes _ _ _ _ hd] at hr
  injection hr with hr
  subst hr
  refine ⟨?_, rfl, rfl, nodup_jsSetDedup _, fun n => mem_jsSetDedup _ n, rfl⟩
  exact (length_filter_not_add_length_filter (fun tc => tc.isMCP) (s.trace ++ cs)).symm

/-- Concrete instance of claim C8 at a run with one local and one bridged
call sharing a tool name with a third call. -/
theorem c8_metadata_partition_witness :
    (mkMetadata [⟨"a", .vNull, .vNum 1, none, false, 1⟩,
                 ⟨"b", .vNull, .vNum 2, none, true, 1⟩,
                 ⟨"a", .vNull, .vNum 3, none, false, 1⟩] 9).toolCallCount =
      (mkMetadata [⟨"a", .vNull, .vNum 1, none, false, 1⟩,
                   ⟨"b", .vNull, .vNum 2, none, true, 1⟩,
                   ⟨"a", .vNull, .vNum 3, none, false, 1⟩] 9).localToolCallCount +
      (mkMetadata [⟨"a", .vNull, .vNum 1, none, false, 1⟩,
                   ⟨"b", .vNull, .vNum 2, none, true, 1⟩,
                   ⟨"a", .vNull, .vNum 3, none, false, 1⟩] 9).mcpToolCallCount ∧
    (mkMetadata [⟨"a", .vNull, .vNum 1, none, false, 1⟩,
                 ⟨"b", .vNull, .vNum 2, none, true, 1⟩,
                 ⟨"a", .vNull, .vNum 3, none, false, 1⟩] 9).toolsUsed.Nodup := by
  have h := c8_metadata_partition SandboxState.reset 9 (.vNum 1)
    [⟨"a", .vNull, .vNum 1, none, false, 1⟩,
     ⟨"b", .vNull, .vNum 2, none, true, 1⟩,
     ⟨"a", .vNull, .vNum 3, none, false, 1⟩]
    { result := computeSerializableOutput (.vNum 1)
        [⟨"a", .vNull, .vNum 1, none, false, 1⟩,
         ⟨"b", .vNull, .vNum 2, none, true, 1⟩,
         ⟨"a", .vNull, .vNum 3, none, false, 1⟩]
      metadata := mkMetadata
        [⟨"a", .vNull, .vNum 1, none, false, 1⟩,
         ⟨"b", .vNull, .vNum 2, none, true, 1⟩,
         ⟨"a", .vNull, .vNum 3, none, false, 1⟩] 9 }
    (by decide) rfl
  exact ⟨h.1, h.2.2.2.1⟩

/-! ### Claim C9 -/

/-- Claim C9: the local registry receives exactly the tools carrying an
execute function whose name does not start with the bridge namespace marker,
the local and bridged name sets are disjoint, and getAllToolNames returns
the local names followed by the bridged names. -/
theorem c9_registry_split (tools : List (String × ToolDefModel)) :
    (∀ n, n ∈ localRegistryNames tools ↔
        ∃ d, (n, d) ∈ tools ∧ d.hasExecute = true ∧ startsWithMcp n = false) ∧
    (∀ n, n ∈ localRegistryNames tools → n ∉ mcpBridgeToolNames tools) ∧
    getAllToolNames tools = localRegistryNames tools ++ mcpBridgeToolNames tools := by
  have hloc : ∀ n, n ∈ localRegistryNames tools →
      startsWithMcp n = false := by
    intro n hn
    obtain ⟨⟨n', td⟩, hmem, rfl⟩ := List.mem_map.mp hn
    have := (List.mem_filter.mp hmem).2
    simp only [Bool.and_eq_true, Bool.not_eq_eq_eq_not, Bool.not_true] at this
    exact this.2
  refine ⟨?_, ?_, rfl⟩
  · intro n
    constructor
    · intro hn
      obtain ⟨⟨n', td⟩, hmem, rfl⟩ := List.mem_map.mp hn
      have hcond := (List.mem_filter.mp hmem).2
      simp only [Bool.and_eq_true, Bool.not_eq_eq_eq_not, Bool.not_true] at hcond
      exact ⟨td, (List.mem_filter.mp hmem).1, hcond.1, hcond.2⟩
    · rintro ⟨td, hmem, hex, hsw⟩
      refine List.mem_map.mpr ⟨(n, td), List.mem_filter.mpr ⟨hmem, ?_⟩, rfl⟩
      simp [hex, hsw]
  · intro n hl hb
    obtain ⟨⟨n', td⟩, hmem, rfl⟩ := List.mem_map.mp hb
    have hcond := (List.mem_filter.mp hmem).2
    simp only [Bool.and_eq_true] at hcond
    rw [hloc _ hl] at hcond
    exact Bool.noConfusion hcond.2

/-- Concrete instance of claim C9: the sample local tool is registered, is
absent from the bridge, and the combined name list is the concatenation. -/
theorem c9_registry_split_witness :
    "getUser" ∈ localRegistryNames demoTools ∧
    "getUser" ∉ mcpBridgeToolNames demoTools ∧
    getAllToolNames demoTools = ["getUser", "mcp_firecrawl_scrape"] := by
  have hmem : "getUser" ∈ localRegistryNames demoTools := by decide
  exact ⟨hmem, (c9_registry_split demoTools).2.1 "getUser" hmem, by decide⟩

/-! ### Claim C5 -/

/-- A value that is its own round trip is also its own round trip as an
array element. -/
theorem rtElem_of_fix (y : JSVal) (h : rtVal y = some y) : rtElem y = some y := by
  cases y <;> simp_all [rtElem, rtVal]

/-- A value that is its own round trip is kept unchanged as an object
field. -/
theorem rtFieldRT_of_fix (v : JSVal) (h : rtVal v = some v) :
    rtFieldRT v = some (some v) := by
  cases v <;> simp_all [rtFieldRT, rtVal]

/-- A list of round-trip fixed points round trips to itself. -/
theorem rtArr_of_forall (ys : List JSVal) (h : ∀ y ∈ ys, rtVal y = some y) :
    rtArr ys = some ys := by
  induction ys with
  | nil => simp [rtArr]
  | cons y ys ih =>
    have hy : rtElem y = some y := rtElem_of_fix y (h y (List.mem_cons_self y ys))
    have hys := ih (fun z hz => h z (List.mem_cons_of_mem y hz))
    simp [rtArr, hy, hys]

/-- A field list of round-trip fixed points round trips to itself. -/
theorem rtObj_of_forall (fs : List (String × JSVal))
    (h : ∀ kv ∈ fs, rtVal kv.2 = some kv.2) : rtObj fs = some fs := by
  induction fs with
  | nil => simp [rtObj]
  | cons kv fs ih =>
    obtain ⟨k, v⟩ := kv
    have hv : rtFieldRT v = some (some v) :=
      rtFieldRT_of_fix v (h (k, v) (List.mem_cons_self _ _))
    have hfs := ih (fun z hz => h z (List.mem_cons_of_mem _ hz))
    simp [rtObj, hv, hfs]

mutual
/-- The round trip is idempotent: its outputs are their own round trips. -/
theorem rtVal_idem : ∀ (v : JSVal) (w : JSVal), rtVal v = some w → rtVal w = some w
  | .vUndefined, w, h => by simp [rtVal] at h
  | .vSymbol _, w, h => by simp [rtVal] at h
  | .vBigInt _, w, h => by simp [rtVal] at h
  | .vNull, w, h => by
    simp only [rtVal, Option.some.injEq] at h
    subst h; simp [rtVal]
  | .vBool b, w, h => by
    simp only [rtVal, Option.some.injEq] at h
    subst h; simp [rtVal]
  | .vNum n, w, h => by
    simp only [rtVal, Option.some.injEq] at h
    subst h; simp [rtVal]
  | .vStr s, w, h => by
    simp only [rtVal, Option.some.injEq] at h
    subst h; simp [rtVal]
  | .vArr xs, w, h => by
    simp only [rtVal] at h
    rw [Option.map_eq_some'] at h
    obtain ⟨ys, hys, rfl⟩ := h
    have hfix := rtArr_of_forall ys (rtArr_sound xs ys hys)
    simp [rtVal, hfix]
  | .vObj fs, w, h => by
    simp only [rtVal] at h
    rw [Option.map_eq_some'] at h
    obtain ⟨gs, hgs, rfl⟩ := h
    have hfix := rtObj_of_forall gs (rtObj_sound fs gs hgs)
    simp [rtVal, hfix]
termination_by v _ _ => (sizeOf v, 1)

/-- An element kept by the array round trip is its own round trip. -/
theorem rtElem_idem : ∀ (x : JSVal) (y : JSVal), rtElem x = some y → rtVal y = some y
  | .vUndefined, y, h => by
    simp only [rtElem, Option.some.injEq] at h
    subst h; simp [rtVal]
  | .vSymbol _, y, h => by
    simp only [rtElem, Option.some.injEq] at h
    subst h; simp [rtVal]
  | .vNull, y, h => rtVal_idem .vNull y (by simpa [rtElem] using h)
  | .vBool b, y, h => rtVal_idem (.vBool b) y (by simpa [rtElem] using h)
  | .vNum n, y, h => rtVal_idem (.vNum n) y (by simpa [rtElem] using h)
  | .vStr s, y, h => rtVal_idem (.vStr s) y (by simpa [rtElem] using h)
  | .vBigInt n, y, h => rtVal_idem (.vBigInt n) y (by simpa [rtElem] using h)
  | .vArr xs, y, h => rtVal_idem (.vArr xs) y (by simpa [rtElem] using h)
  | .vObj fs, y, h => rtVal_idem (.vObj fs) y (by simpa [rtElem] using h)
termination_by x _ _ => (sizeOf x, 2)

/-- A field value kept by the object round trip is its own round trip. -/
theorem rtFieldRT_idem : ∀ (v : JSVal) (y : JSVal), rtFieldRT v = some (some y) →
    rtVal y = some y
  | .vUndefined, y, h => by simp [rtFieldRT] at h
  | .vSymbol _, y, h => by simp [rtFieldRT] at h
  | .vNull, y, h =>
    rtVal_idem .vNull y (by simpa [rtFieldRT, Option.map_eq_some'] using h)
  | .vBool b, y, h =>
    rtVal_idem (.vBool b) y (by simpa [rtFieldRT, Option.map_eq_some'] using h)
  | .vNum n, y, h =>
    rtVal_idem (.vNum n) y (by simpa [rtFieldRT, Option.map_eq_some'] using h)
  | .vStr s, y, h =>
    rtVal_idem (.vStr s) y (by simpa [rtFieldRT, Option.map_eq_some'] using h)
  | .vBigInt n, y, h =>
    rtVal_idem (.vBigInt n) y (by simpa [rtFieldRT, Option.map_eq_some'] using h)
  | .vArr xs, y, h =>
    rtVal_idem (.vArr xs) y (by simpa [rtFieldRT, Option.map_eq_some'] using h)
  | .vObj fs, y, h =>
    rtVal_idem (.vObj fs) y (by simpa [rtFieldRT, Option.map_eq_some'] using h)
termination_by v _ _ => (sizeOf v, 2)

/-- All members of a round-tripped array are their own round trips. -/
theorem rtArr_sound : ∀ (xs : List JSVal) (ys : List JSVal), rtArr xs = some ys →
    ∀ y ∈ ys, rtVal y = some y
  | [], ys, h, y, hy => by
    simp only [rtArr, Option.some.injEq] at h
    subst h; simp at hy
  | x :: xs', ys, h, y, hy => by
    simp only [rtArr] at h
    cases he : rtElem x with
    | none => rw [he] at h; simp at h
    | some z =>
      cases hr : rtArr xs' with
      | none => rw [he, hr] at h; simp at h
      | some rest =>
        rw [he, hr] at h
        simp only [Option.some.injEq] at h
        subst h
        rcases List.mem_cons.mp hy with rfl | hym
        · exact rtElem_idem x y he
        · exact rtArr_sound xs' rest hr y hym
termination_by xs _ _ _ _ => (sizeOf xs, 1)

/-- All kept fields of a round-tripped object are their own round trips. -/
theorem rtObj_sound : ∀ (fs : List (String × JSVal)) (gs : List (String × JSVal)),
    rtObj fs = some gs → ∀ kv ∈ gs, rtVal kv.2 = some kv.2
  | [], gs, h, kv, hkv => by
    simp only [rtObj, Option.some.injEq] at h
    subst h; simp at hkv
  | (k, v) :: fs', gs, h, kv, hkv => by
    simp only [rtObj] at h
    cases hf : rtFieldRT v with
    | none => rw [hf] at h; simp at h
    | some o =>
      cases hr : rtObj fs' with
      | none =>
        rw [hf, hr] at h
        cases o <;> simp at h
      | some rest =>
        rw [hf, hr] at h
        cases o with
        | none =>
          simp only [Option.some.injEq] at h
          subst h
          exact rtObj_sound fs' rest hr kv hkv
        | some y =>
          simp only [Option.some.injEq] at h
          subst h
          rcases List.mem_cons.mp hkv with rfl | hkm
          · exact rtFieldRT_idem v y hf
          · exact rtObj_sound fs' rest hr kv hkm
termination_by fs _ _ _ _ => (sizeOf fs, 1)
end

/-- Every per-field recovery result is its own round trip. -/
theorem coerceField_rep (v : JSVal) :
    rtVal (coerceField v) = some (coerceField v) := by
  simp only [coerceField]
  cases h : rtVal v with
  | some w => simpa using rtVal_idem v w h
  | none => simp [rtVal]

/-- The serializer output is always its own round trip: the defensive chain
never hands back a value whose serialization would throw. -/
theorem serializeValue_rep (v : JSVal) :
    rtVal (serializeValue v) = some (serializeValue v) := by
  simp only [serializeValue]
  cases h : rtVal v with
  | some w => exact rtVal_idem v w h
  | none =>
    cases hobj : isObjectLike v with
    | true =>
      have hfix : rtObj ((entriesJS v).map (fun kv => (kv.1, coerceField kv.2))) =
          some ((entriesJS v).map (fun kv => (kv.1, coerceField kv.2))) := by
        apply rtObj_of_forall
        intro kv hkv
        obtain ⟨kv0, _, rfl⟩ := List.mem_map.mp hkv
        exact coerceField_rep kv0.2
      simpa [rtVal] using hfix
    | false =>
      simp [rtVal, rtObj, rtFieldRT]

/-- Claim C5 fails as stated for unrepresentable primitives: a bigint-like
value is wholly unrepresentable, yet the substituted diagnostic object
carries a value field and a type field and describes no key names. -/
theorem c5_counterexample :
    rtVal (.vBigInt 1) = none ∧
    serializeValue (.vBigInt 1) =
      .vObj [("value", .vStr "1"), ("type", .vStr "bigint")] ∧
    List.lookup "keys" [("value", JSVal.vStr "1"), ("type", JSVal.vStr "bigint")] = none := by
  refine ⟨by simp [rtVal], ?_, by rfl⟩
  simp only [serializeValue, rtVal, isObjectLike, jsToString, typeofJS]
  rfl

/-- Claim C5 (amended): the serialization chain never raises and always
returns a value that is its own structural round trip; a value surviving the
round trip is returned as that copy; an object-like value whose round trip
throws has its entries round-tripped individually with failing fields
coerced to strings; an unrepresentable primitive is replaced by a diagnostic
object carrying its string form and type (not key names); and every
successful run with a non-nullish output returns exactly the serialized
output. -/
theorem c5_serialization_defensive (v : JSVal) :
    (∀ w, rtVal v = some w → serializeValue v = w) ∧
    (rtVal v = none → isObjectLike v = true →
      serializeValue v =
        .vObj ((entriesJS v).map (fun kv => (kv.1, coerceField kv.2))) ∧
      ∀ kv ∈ entriesJS v,
        (∀ u, rtVal kv.2 = some u → coerceField kv.2 = u) ∧
        (rtVal kv.2 = none → coerceField kv.2 = .vStr (jsToString kv.2))) ∧
    (rtVal v = none → isObjectLike v = false →
      serializeValue v =
        .vObj [("value", .vStr (jsToString v)), ("type", .vStr (typeofJS v))]) ∧
    rtVal (serializeValue v) = some (serializeValue v) ∧
    (∀ s d cs r, d ≤ timeoutBudgetMs → isNullish v = false →
      (codeExecutionExecute s d (.completes v cs)).1 = .ok r →
      r.result = serializeValue v) := by
  refine ⟨?_, ?_, ?_, serializeValue_rep v, ?_⟩
  · intro w h
    simp [serializeValue, h]
  · intro hnone hobj
    refine ⟨by simp [serializeValue, hnone, hobj],
            fun kv _ => ⟨fun u hu => ?_, fun hn => ?_⟩⟩
    · simp [coerceField, hu]
    · simp [coerceField, hn]
  · intro hnone hobj
    simp [serializeValue, hnone, hobj]
  · intro s d cs r hd hnn hr
    rw [codeExecutionExecute_completes _ _ _ _ hd] at hr
    injection hr with hr
    subst hr
    simp [computeSerializableOutput, hnn]

/-- Concrete instance of claim C5 (amended): the number 42 survives the
round trip and is returned unchanged by a run. -/
theorem c5_serialization_defensive_witness :
    rtVal (.vNum 42) = some (.vNum 42) ∧
    serializeValue (.vNum 42) = .vNum 42 ∧
    isNullish (.vNum 42) = false := by
  have h := (c5_serialization_defensive (.vNum 42)).1 (.vNum 42) (by simp [rtVal])
  exact ⟨by simp [rtVal], h, rfl⟩

end PTC
